import Mathlib

/-!
Verification of the scheduling core of the Gelber Gown Gemach booking
service. The definitions below are a shallow embedding of the TypeScript
source: calendar dates are handled at day granularity as the number of
days since 1970-01-01 (`EpochDay`), so `Date.getDay()` becomes
`dayOfWeek`, Firestore `Timestamp`s on bookings become epoch days, and
Firestore collections become lists of documents keyed the way the
corresponding documents are keyed. The bookkeeping timestamps
(`createdAt`/`updatedAt`) are omitted from the document models.
-/

namespace Gemach

/-- Days since 1970-01-01 (which was a Thursday). All dates in the system
are handled at day granularity. -/
abbrev EpochDay := Nat

/-- JS `Date.getDay()`: 0 = Sunday, ..., 6 = Saturday. Epoch day 0
(1970-01-01) was a Thursday (= 4). -/
def dayOfWeek (d : EpochDay) : Nat := (d + 4) % 7

/-! ### Character helpers for the regex-based parsing in date-utils -/

def isDigitChar (c : Char) : Bool := '0' ≤ c && c ≤ '9'

def digitVal (c : Char) : Nat := c.toNat - '0'.toNat

def isSpaceChar (c : Char) : Bool := c = ' ' || c = '\t' || c = '\n' || c = '\r'

/-- Greedy `\s*`. -/
def skipSpaces : List Char → List Char
  | [] => []
  | c :: cs => if isSpaceChar c then skipSpaces cs else c :: cs

inductive Meridiem
  | am
  | pm
deriving DecidableEq, Repr

/-- Match the `(am|pm)?` group of the `parseTime` regex (case-insensitive)
at the current position. -/
def matchMeridiem : List Char → Option Meridiem
  | c1 :: c2 :: _ =>
    if (c1 == 'a' || c1 == 'A') && (c2 == 'm' || c2 == 'M') then some .am
    else if (c1 == 'p' || c1 == 'P') && (c2 == 'm' || c2 == 'M') then some .pm
    else none
  | _ => none

/-- Match the regex `(\d{1,2}):?(\d{2})?\s*(am|pm)?` at a position whose
first character is a digit (all groups greedy, as in JS). Returns the
value of the hour digits, the optional minutes group and the optional
meridiem group. -/
def matchTimeAt : List Char → Option (Nat × Option Nat × Option Meridiem)
  | [] => none
  | c :: rest =>
    if isDigitChar c then
      let hr : Nat × List Char :=
        match rest with
        | d :: rest' =>
          if isDigitChar d then (10 * digitVal c + digitVal d, rest') else (digitVal c, d :: rest')
        | [] => (digitVal c, [])
      let rest2 : List Char :=
        match hr.2 with
        | ':' :: r => r
        | r => r
      let mr : Option Nat × List Char :=
        match rest2 with
        | d1 :: d2 :: r =>
          if isDigitChar d1 && isDigitChar d2 then (some (10 * digitVal d1 + digitVal d2), r)
          else (none, rest2)
        | _ => (none, rest2)
      some (hr.1, mr.1, matchMeridiem (skipSpaces mr.2))
    else none

/-- Leftmost match of the `parseTime` regex: JS regex search scans left to
right, and any position starting with a digit yields a match (everything
after `\d{1,2}` is optional), so the match starts at the first digit. -/
def findTimeMatch : List Char → Option (Nat × Option Nat × Option Meridiem)
  | [] => none
  | c :: cs => if isDigitChar c then matchTimeAt (c :: cs) else findTimeMatch cs

/-- Function `parseTime` from date-utils (src/unnamed/part_004): extract hours and
minutes from a time string, applying the AM/PM adjustment. -/
def parseTime (timeStr : String) : Option (Nat × Nat) :=
  match findTimeMatch timeStr.data with
  | none => none
  | some (h, mins, period) =>
    let minutes := mins.getD 0
    let hours :=
      if period = some Meridiem.pm ∧ h ≠ 12 then h + 12
      else if period = some Meridiem.am ∧ h = 12 then 0
      else h
    some (hours, minutes)

/-- Function `isValidAppointmentTime` from date-utils (src/unnamed/part_004). -/
def isValidAppointmentTime (date : EpochDay) (timeStr : String) : Bool :=
  match parseTime timeStr with
  | none => false
  | some (hour, minute) =>
    if dayOfWeek date = 3 then
      (hour == 11 && (minute == 30 || minute == 45)) ||
        (hour == 12 && (minute == 0 || minute == 15))
    else if dayOfWeek date = 6 then
      if 19 ≤ hour && hour ≤ 21 then
        if minute == 0 || minute == 15 || minute == 30 || minute == 45 then
          if hour == 21 && minute > 15 then false else true
        else false
      else false
    else false

/-! ### Canonical slot lists -/

/-- Constant `APPOINTMENT_SLOTS.wednesday` from booking-handler.ts. -/
def wednesdaySlots : List String := ["11:30 AM", "11:45 AM", "12:00 PM", "12:15 PM"]

/-- Constant `APPOINTMENT_SLOTS.motzeiShabbos` from booking-handler.ts. -/
def motzeiShabbosSlots : List String :=
  ["7:30 PM", "7:45 PM", "8:00 PM", "8:15 PM", "8:30 PM", "8:45 PM", "9:00 PM", "9:15 PM"]

/-- Function `slotsFor` (spec §4.1): the canonical slot list for a date's weekday.
In the source this weekday dispatch appears in `getAvailableSlotsForDate`
and `createBooking` over `APPOINTMENT_SLOTS`. -/
def slotsFor (d : EpochDay) : List String :=
  if dayOfWeek d = 3 then wednesdaySlots
  else if dayOfWeek d = 6 then motzeiShabbosSlots
  else []

/-! ### Data model (Firestore schema types, src/unnamed/part_003) -/

inductive BookingStatus
  | pending
  | confirmed
  | completed
  | cancelled
  | noShow
deriving DecidableEq, Repr

structure Customer where
  id : String
  name : String
  phone : String
deriving DecidableEq, Repr

/-- The `Booking` document (timestamps of record omitted; the two
appointment/wedding `Timestamp`s are modelled at day granularity). -/
structure Booking where
  id : String
  customerId : String
  customerName : String
  customerPhone : String
  appointmentDate : EpochDay
  slotTime : String
  slotDuration : Nat
  groupSize : Nat
  weddingDate : EpochDay
  status : BookingStatus
  gownPickedUp : Bool := false
  gownReturned : Bool := false
  donationPaid : Bool := false
  confirmationSent : Bool := false
  dayBeforeReminderSent : Bool := false
  returnReminderSent : Bool := false
deriving DecidableEq, Repr

/-- Per-weekday configuration from schedule-config.ts. -/
structure DayConfig where
  enabled : Bool
  slots : List String
deriving DecidableEq, Repr

structure ScheduleConfig where
  wednesday : DayConfig
  saturday : DayConfig
deriving DecidableEq, Repr

/-- Constant `DEFAULT_CONFIG` from schedule-config.ts. -/
def DEFAULT_CONFIG : ScheduleConfig :=
  { wednesday := { enabled := true, slots := wednesdaySlots }
    saturday := { enabled := true, slots := motzeiShabbosSlots } }

/-- The `BlockedDate` document from schedule-config.ts. Its Firestore doc id
and `dateStr` field are both the `YYYY-MM-DD` rendering of the date,
injective per calendar day, so both are modelled by the epoch day
(`createdAt` omitted). -/
structure BlockedDate where
  id : EpochDay
  date : EpochDay
  reason : Option String
  blockedSlots : List String
deriving DecidableEq, Repr

/-- The persistent store: the four Firestore collections. -/
structure Db where
  customers : List Customer := []
  bookings : List Booking := []
  scheduleConfig : Option ScheduleConfig := none
  blockedDates : List BlockedDate := []
deriving DecidableEq, Repr

/-- Firestore `doc(id).set(x)` on the bookings collection: replace the
document with this id, or create it. -/
def setBookingDoc (bs : List Booking) (b : Booking) : List Booking :=
  if bs.any (fun x => x.id == b.id) then bs.map (fun x => if x.id == b.id then b else x)
  else bs ++ [b]

/-- Firestore `doc(id).set(x)` on the customers collection. -/
def setCustomerDoc (cs : List Customer) (c : Customer) : List Customer :=
  if cs.any (fun x => x.id == c.id) then cs.map (fun x => if x.id == c.id then c else x)
  else cs ++ [c]

/-- Firestore `doc(dateStr).set(x)` on the blockedDates collection. -/
def setBlockedDateDoc (bs : List BlockedDate) (b : BlockedDate) : List BlockedDate :=
  if bs.any (fun x => x.id == b.id) then bs.map (fun x => if x.id == b.id then b else x)
  else bs ++ [b]

/-- JS `phone.replace(/\D/g, '')`. -/
def digitsOnly (s : String) : String := ⟨s.data.filter (fun c => isDigitChar c)⟩

/-! ### Booking handler (src/src/lib/sms/booking-handler.ts) -/

/-- Function `upsertCustomer`: keyed by the digits of the phone number; an existing
record keeps its stored phone and gets the new name. -/
def upsertCustomer (db : Db) (phone name : String) : Customer × Db :=
  let customerId := digitsOnly phone
  match db.customers.find? (fun c => c.id == customerId) with
  | some existing =>
    let customer := { existing with name := name }
    (customer, { db with customers := setCustomerDoc db.customers customer })
  | none =>
    let customer : Customer := { id := customerId, name := name, phone := phone }
    (customer, { db with customers := setCustomerDoc db.customers customer })

/-- Function `isSlotAvailable`: after the `isValidAppointmentTime` guard, the
Firestore query selects bookings on the same calendar day (the
`appointmentDate` range `[startOfDay, endOfDay]`, i.e. day equality in
the day-granular model) with this slot label and status in
`['pending', 'confirmed']`; the slot is available when that query is
empty. -/
def isSlotAvailable (db : Db) (date : EpochDay) (slotTime : String) : Bool :=
  if !isValidAppointmentTime date slotTime then false
  else
    !(db.bookings.any (fun b =>
        b.appointmentDate == date && b.slotTime == slotTime &&
          (b.status == BookingStatus.pending || b.status == BookingStatus.confirmed)))

/-- The `Error`s thrown by the booking handler, in the source the
messages 'Slot is not available', 'Groups of 5-6 need the last slot of
the evening' and 'Maximum group size is 6'. -/
inductive BookingError
  | slotUnavailable
  | partySizeRequiresLastSlot
  | partySizeExceeded
deriving DecidableEq, Repr

deriving instance DecidableEq for Except

/-- The argument record of `createBooking`. -/
structure CreateParams where
  customerPhone : String
  customerName : String
  appointmentDate : EpochDay
  slotTime : String
  groupSize : Nat
  weddingDate : EpochDay
deriving DecidableEq, Repr

/-- The party-size validation inside `createBooking` (booking-handler.ts
lines 129-140): returns the error to throw, if any. -/
def partySizeCheck (p : CreateParams) : Option BookingError :=
  if p.groupSize > 4 && p.groupSize ≤ 6 then
    let slots := if dayOfWeek p.appointmentDate = 3 then wednesdaySlots else motzeiShabbosSlots
    let lastSlot := slots.getLastD ""
    if p.slotTime ≠ lastSlot then some .partySizeRequiresLastSlot else none
  else if p.groupSize > 6 then some .partySizeExceeded
  else none

/-- The `Booking` document constructed by `createBooking`; its Firestore
doc id `${customer.id}_${appointmentDate.getTime()}` is modelled at day
granularity. -/
def mkBooking (customer : Customer) (p : CreateParams) : Booking :=
  { id := customer.id ++ "_" ++ toString p.appointmentDate
    customerId := customer.id
    customerName := p.customerName
    customerPhone := p.customerPhone
    appointmentDate := p.appointmentDate
    slotTime := p.slotTime
    slotDuration := if p.groupSize > 4 then 30 else 15
    groupSize := p.groupSize
    weddingDate := p.weddingDate
    status := .confirmed }

/-- Function `createBooking`: upsert the customer, read availability, validate the
party size, then write the booking document. A thrown error leaves the
store as it was after the customer upsert. -/
def createBooking (db : Db) (p : CreateParams) : Except BookingError Booking × Db :=
  let r := upsertCustomer db p.customerPhone p.customerName
  let customer := r.1
  let db1 := r.2
  if !isSlotAvailable db1 p.appointmentDate p.slotTime then (.error .slotUnavailable, db1)
  else
    match partySizeCheck p with
    | some e => (.error e, db1)
    | none =>
      let booking := mkBooking customer p
      (.ok booking, { db1 with bookings := setBookingDoc db1.bookings booking })

/-- Local state of one in-flight `createBooking` call, cut at its `await`
boundaries: the customer upsert, the availability read, and the booking
write each hit the store separately, with no transaction around them. -/
inductive CallState
  | ready
  | upserted (customer : Customer)
  | checked (customer : Customer) (available : Bool)
  | finished (result : Except BookingError Booking)
deriving DecidableEq, Repr

/-- One atomic step of an in-flight `createBooking` call against the
shared store. -/
def callStep (db : Db) (p : CreateParams) : CallState → Db × CallState
  | .ready =>
    let r := upsertCustomer db p.customerPhone p.customerName
    (r.2, .upserted r.1)
  | .upserted c => (db, .checked c (isSlotAvailable db p.appointmentDate p.slotTime))
  | .checked c available =>
    if !available then (db, .finished (.error .slotUnavailable))
    else
      match partySizeCheck p with
      | some e => (db, .finished (.error e))
      | none =>
        let booking := mkBooking c p
        ({ db with bookings := setBookingDoc db.bookings booking }, .finished (.ok booking))
  | .finished r => (db, .finished r)

/-- Interleaved execution of two concurrent `createBooking` calls against
the shared store: `true` schedules a step of call 1, `false` a step of
call 2. -/
def exec2 (p1 p2 : CreateParams) : List Bool → Db × CallState × CallState → Db × CallState × CallState
  | [], s => s
  | pick :: rest, (db, s1, s2) =>
    if pick then
      let r := callStep db p1 s1
      exec2 p1 p2 rest (r.1, r.2, s2)
    else
      let r := callStep db p2 s2
      exec2 p1 p2 rest (r.1, s1, r.2)

inductive RescheduleOutcome
  | notFound
  | slotUnavailable
  | rescheduled (b : Booking)
deriving DecidableEq, Repr

/-- Function `rescheduleBooking`: returns `null` for an unknown id, throws (with
the store untouched) when `isSlotAvailable` rejects the new slot, and
otherwise updates the date/time fields and clears
`dayBeforeReminderSent`. -/
def rescheduleBooking (db : Db) (bookingId : String) (newDate : EpochDay)
    (newSlotTime : String) : RescheduleOutcome × Db :=
  match db.bookings.find? (fun b => b.id == bookingId) with
  | none => (.notFound, db)
  | some b =>
    if !isSlotAvailable db newDate newSlotTime then (.slotUnavailable, db)
    else
      let updated :=
        { b with appointmentDate := newDate, slotTime := newSlotTime,
                 dayBeforeReminderSent := false }
      (.rescheduled updated, { db with bookings := setBookingDoc db.bookings updated })

/-! ### Schedule configuration (src/src/lib/sms/schedule-config.ts) -/

/-- Function `getScheduleConfig`: the stored config document, or `DEFAULT_CONFIG`
when absent. -/
def getScheduleConfig (db : Db) : ScheduleConfig := db.scheduleConfig.getD DEFAULT_CONFIG

/-- Function `getBlockedDate`: document lookup by the date key. -/
def getBlockedDate (db : Db) (dateKey : EpochDay) : Option BlockedDate :=
  db.blockedDates.find? (fun b => b.id == dateKey)

/-- The result record of `getConfiguredSlotsForDate`. -/
structure SlotsResult where
  slots : List String
  blocked : Bool
  reason : Option String := none
deriving DecidableEq, Repr

/-- Function `getConfiguredSlotsForDate` from schedule-config.ts. -/
def getConfiguredSlotsForDate (db : Db) (date : EpochDay) : SlotsResult :=
  let config := getScheduleConfig db
  let dayConfig : Option DayConfig :=
    if dayOfWeek date = 3 then some config.wednesday
    else if dayOfWeek date = 6 then some config.saturday
    else none
  match dayConfig with
  | none => { slots := [], blocked := false }
  | some dc =>
    if !dc.enabled then { slots := [], blocked := false }
    else
      match getBlockedDate db date with
      | some blockedInfo =>
        if blockedInfo.blockedSlots.isEmpty then
          { slots := [], blocked := true, reason := blockedInfo.reason }
        else
          { slots := dc.slots.filter (fun slot => !blockedInfo.blockedSlots.contains slot),
            blocked := false }
      | none => { slots := dc.slots, blocked := false }

/-- Function `blockDate` from schedule-config.ts: builds the `BlockedDate` document
(`options?.blockedSlots || []` keeps an explicitly passed list — a passed
empty array is itself truthy — and defaults an absent one to `[]`) and
`set`s it at the date key. -/
def blockDate (db : Db) (date : EpochDay) (reason : Option String)
    (blockedSlots : Option (List String)) : BlockedDate × Db :=
  let bd : BlockedDate :=
    { id := date, date := date, reason := reason, blockedSlots := blockedSlots.getD [] }
  (bd, { db with blockedDates := setBlockedDateDoc db.blockedDates bd })

/-! ### Conversation data merging (src/src/lib/sms/message-parser.ts and
the `updateConversationState` continuation in schedule-config.ts) -/

/-- The `extractedData` / `collectedData` partial record. A JS field that
is `undefined` or `null` is `none`; the empty string is `some ""`. -/
structure ExtractedData where
  name : Option String := none
  appointmentDate : Option String := none
  slotTime : Option String := none
  groupSize : Option Nat := none
  weddingDate : Option String := none
  phone : Option String := none
deriving DecidableEq, Repr

/-- The entry filter in `mergeData`, for string-valued fields: an
incoming entry survives `v !== undefined && v !== null && v !== ''`. -/
def mergeStr (existing incoming : Option String) : Option String :=
  match incoming with
  | some s => if s = "" then existing else some s
  | none => existing

/-- The same filter for the number-valued `groupSize` field: every
incoming number passes (`v !== ''` holds for every number under strict
inequality). -/
def mergeNum (existing incoming : Option Nat) : Option Nat :=
  match incoming with
  | some n => some n
  | none => existing

/-- Function `mergeData`: spread `existing`, then the filtered entries of
`newData`. -/
def mergeData (existing newData : ExtractedData) : ExtractedData :=
  { name := mergeStr existing.name newData.name
    appointmentDate := mergeStr existing.appointmentDate newData.appointmentDate
    slotTime := mergeStr existing.slotTime newData.slotTime
    groupSize := mergeNum existing.groupSize newData.groupSize
    weddingDate := mergeStr existing.weddingDate newData.weddingDate
    phone := mergeStr existing.phone newData.phone }

/-- JS falsiness of a string-valued field (`!data[field]`): absent or the
empty string. -/
def missingStr : Option String → Bool
  | none => true
  | some s => s == ""

/-- JS falsiness of the number-valued `groupSize` field (`0` is falsy). -/
def missingNum : Option Nat → Bool
  | none => true
  | some n => n == 0

/-- Function `getMissingFields` over `REQUIRED_FIELDS = ['name',
'appointmentDate', 'groupSize', 'weddingDate', 'phone']`. -/
def getMissingFields (d : ExtractedData) : List String :=
  (if missingStr d.name then ["name"] else []) ++
    (if missingStr d.appointmentDate then ["appointmentDate"] else []) ++
    (if missingNum d.groupSize then ["groupSize"] else []) ++
    (if missingStr d.weddingDate then ["weddingDate"] else []) ++
    (if missingStr d.phone then ["phone"] else [])

/-- The `collectedData` computation of `updateConversationState`: merge
the new extraction into the existing data, then default the phone field
to the sender's phone when it is JS-falsy. -/
def updateCollectedData (existing : Option ExtractedData) (incoming : ExtractedData)
    (phone : String) : ExtractedData :=
  let collectedData := mergeData (existing.getD {}) incoming
  if missingStr collectedData.phone then { collectedData with phone := some phone }
  else collectedData

/-- Enumeration of the collected-data fields, for stating merge
properties uniformly. -/
inductive DataField
  | name
  | appointmentDate
  | slotTime
  | groupSize
  | weddingDate
  | phone
deriving DecidableEq, Repr

/-- A JS field value, string- or number-typed. -/
inductive JsVal
  | str (s : String)
  | num (n : Nat)
deriving DecidableEq, Repr

def getField : DataField → ExtractedData → Option JsVal
  | .name, d => d.name.map .str
  | .appointmentDate, d => d.appointmentDate.map .str
  | .slotTime, d => d.slotTime.map .str
  | .groupSize, d => d.groupSize.map .num
  | .weddingDate, d => d.weddingDate.map .str
  | .phone, d => d.phone.map .str

/-- Non-emptiness in the sense of the `mergeData` filter: the empty
string is the only empty value among the extracted field types. -/
def nonEmptyVal : JsVal → Bool
  | .str s => s != ""
  | .num _ => true

/-! ### Date utilities (src/unnamed/part_004) -/

/-- JS `toLowerCase`, restricted to ASCII (the only characters the date
parser distinguishes). -/
def toLowerAscii (s : String) : String := ⟨s.data.map Char.toLower⟩

/-- JS `String.prototype.trim`: strip leading and trailing whitespace. -/
def trimChars (s : String) : String :=
  ⟨((s.data.dropWhile isSpaceChar).reverse.dropWhile isSpaceChar).reverse⟩

/-- Civil date (year, month 1-12, day) of an epoch day: the standard
`civil_from_days` Gregorian algorithm, matching what the JS `Date`
accessors report. -/
def civilFromDays (z0 : Int) : Int × Int × Int :=
  let z := z0 + 719468
  let era := (if 0 ≤ z then z else z - 146096) / 146097
  let doe := z - era * 146097
  let yoe := (doe - doe / 1460 + doe / 36524 - doe / 146096) / 365
  let y := yoe + era * 400
  let doy := doe - (365 * yoe + yoe / 4 - yoe / 100)
  let mp := (5 * doy + 2) / 153
  let d := doy - (153 * mp + 2) / 5 + 1
  let m := if mp < 10 then mp + 3 else mp - 9
  (if m ≤ 2 then y + 1 else y, m, d)

/-- Epoch day of a civil date: the standard `days_from_civil` Gregorian
algorithm. The day argument may lie outside 1-31 and rolls over exactly
like the JS `Date` constructor (the formula is linear in `d`). -/
def daysFromCivil (y0 m d : Int) : Int :=
  let y := if m ≤ 2 then y0 - 1 else y0
  let era := (if 0 ≤ y then y else y - 399) / 400
  let yoe := y - era * 400
  let doy := (153 * (if 2 < m then m - 3 else m + 9) + 2) / 5 + d - 1
  let doe := yoe * 365 + yoe / 4 - yoe / 100 + doy
  era * 146097 + doe - 719468

/-- JS `Date.prototype.setFullYear`: decompose, replace the year,
recompose (a Feb 29 rolls to Mar 1 in a non-leap year, as in JS). -/
def setYear (d newYear : Int) : Int :=
  let c := civilFromDays d
  daysFromCivil newYear c.2.1 c.2.2

def dayNames : List String :=
  ["sunday", "monday", "tuesday", "wednesday", "thursday", "friday", "saturday"]

/-- The alternatives of the weekday-name group of the `parseDate` regex,
in the source's order. -/
def dayAlternatives : List String :=
  ["sunday", "monday", "tuesday", "wednesday", "thursday", "friday", "saturday",
   "shabbos", "motzei shabbos"]

/-- Try the day-name alternation at the current position (the input is
already lower-cased). -/
def matchDayName (cs : List Char) : Option String :=
  dayAlternatives.find? (fun d => d.data.isPrefixOf cs)

/-- Try the weekday regex `(this|next)?\s*(<day names>)` at one position:
a regex tries the optional group's alternatives first, then the empty
alternative, re-matching `\s*` from the same position. -/
def matchWeekdayAt (cs : List Char) : Option (Option String × String) :=
  let withPre : Option (Option String × String) :=
    if "this".data.isPrefixOf cs then
      (matchDayName (skipSpaces (cs.drop 4))).map (fun d => (some "this", d))
    else if "next".data.isPrefixOf cs then
      (matchDayName (skipSpaces (cs.drop 4))).map (fun d => (some "next", d))
    else none
  match withPre with
  | some r => some r
  | none => (matchDayName (skipSpaces cs)).map (fun d => ((none : Option String), d))

/-- Leftmost match of the weekday regex. -/
def findWeekdayMatch : List Char → Option (Option String × String)
  | [] => none
  | c :: cs =>
    match matchWeekdayAt (c :: cs) with
    | some r => some r
    | none => findWeekdayMatch cs

/-- JS `/\d{4}/.test(s)`: four consecutive digits anywhere. -/
def hasFourDigitRun : List Char → Bool
  | a :: b :: c :: d :: rest =>
    (isDigitChar a && isDigitChar b && isDigitChar c && isDigitChar d) ||
      hasFourDigitRun (b :: c :: d :: rest)
  | _ => false

def atLeastTwoDigits : List Char → Bool
  | a :: b :: _ => isDigitChar a && isDigitChar b
  | _ => false

/-- The tail `\d{1,2}\/\d{2,4}` of the slash-date test (existence, so
only the two-digit lower bound of the last group matters). -/
def slashSecond : List Char → Bool
  | a :: '/' :: r => isDigitChar a && atLeastTwoDigits r
  | a :: b :: '/' :: r => isDigitChar a && isDigitChar b && atLeastTwoDigits r
  | _ => false

/-- Pattern `\d{1,2}\/\d{1,2}\/\d{2,4}` at one position. -/
def slashDateAt : List Char → Bool
  | a :: '/' :: r => isDigitChar a && slashSecond r
  | a :: b :: '/' :: r => isDigitChar a && isDigitChar b && slashSecond r
  | _ => false

/-- JS `/\d{1,2}\/\d{1,2}\/\d{2,4}/.test(s)`. -/
def hasSlashDate : List Char → Bool
  | [] => false
  | c :: cs => slashDateAt (c :: cs) || hasSlashDate cs

/-- The call to the host's generic `new Date(string)` parser inside
`parseDate`. That parser is a JS-engine builtin, not code of this
repository; it is modelled as always invalid (`NaN`), which in the
source falls through to the month-day branch. No claim exercises it: the
branch is guarded by `hasFourDigitRun`/`hasSlashDate` and every claim
input is digit-free. -/
def jsGenericDateParse (_s : String) : Option EpochDay := none

def monthNames : List String :=
  ["january", "february", "march", "april", "may", "june", "july", "august",
   "september", "october", "november", "december"]

def isWordChar (c : Char) : Bool :=
  ('a' ≤ c && c ≤ 'z') || ('A' ≤ c && c ≤ 'Z') || ('0' ≤ c && c ≤ '9') || c = '_'

/-- Maximal `\w+` run at the head of the list, with the remainder. -/
def takeWordRun : List Char → List Char × List Char
  | [] => ([], [])
  | c :: cs =>
    if isWordChar c then
      let r := takeWordRun cs
      (c :: r.1, r.2)
    else ([], c :: cs)

/-- Pattern `\s+` followed by greedy `\s*`. -/
def skipSpacesPlus : List Char → Option (List Char)
  | c :: cs => if isSpaceChar c then some (skipSpaces cs) else none
  | [] => none

/-- The month-day regex `(\w+)\s+(\d{1,2})(?:st|nd|rd|th)?` at one
position: the maximal word run (shorter runs leave a word character
where `\s+` must match, so no backtracking arises), at least one space,
then one or two digits (greedy). -/
def matchMonthDayAt (cs : List Char) : Option (String × Nat) :=
  match takeWordRun cs with
  | ([], _) => none
  | (run, rest) =>
    match skipSpacesPlus rest with
    | none => none
    | some rest2 =>
      match rest2 with
      | d1 :: d2 :: _ =>
        if isDigitChar d1 then
          if isDigitChar d2 then some (⟨run⟩, 10 * digitVal d1 + digitVal d2)
          else some (⟨run⟩, digitVal d1)
        else none
      | [d1] => if isDigitChar d1 then some (⟨run⟩, digitVal d1) else none
      | [] => none

/-- Leftmost match of the month-day regex. -/
def findMonthDayMatch : List Char → Option (String × Nat)
  | [] => none
  | c :: cs =>
    match matchMonthDayAt (c :: cs) with
    | some r => some r
    | none => findMonthDayMatch cs

/-- The month-day fallback branch of `parseDate` (`"March 15"` style):
month matched by its three-letter stem, year inferred, with the
past/next-year and more-than-8-months adjustments. The source compares
`Date` objects by their millisecond value; the constructed date sits at
12:00 and `today` at 00:00, so `result < today` is the strict day
comparison and `monthsInFuture > 8` is the exact integer comparison
spelled out below. -/
def parseMonthDay (lower : String) (today : EpochDay) : Option EpochDay :=
  match findMonthDayMatch lower.data with
  | none => none
  | some (word, day) =>
    match monthNames.findIdx? (fun m => word.startsWith (m.take 3)) with
    | none => none
    | some monthIndex =>
      let year := (civilFromDays (Int.ofNat today)).1
      let result0 := daysFromCivil year (Int.ofNat monthIndex + 1) (Int.ofNat day)
      let result1 :=
        if result0 < Int.ofNat today then setYear result0 ((civilFromDays result0).1 + 1)
        else result0
      -- (result.getTime() - today.getTime()) / (1000*60*60*24*30) > 8
      let monthsGt8 :=
        86400000 * (result1 - Int.ofNat today) + 43200000 > 20736000000
      let result2 :=
        if monthsGt8 then
          let back := setYear result1 ((civilFromDays result1).1 - 1)
          if back < Int.ofNat today then setYear back ((civilFromDays back).1 + 1) else back
        else result1
      some result2.toNat

/-- Function `parseDate` from date-utils: natural-language date resolution against
a reference date. `setHours(0,0,0,0)` on the reference is the identity
at day granularity. -/
def parseDate (dateStr : String) (referenceDate : EpochDay) : Option EpochDay :=
  let lower := trimChars (toLowerAscii dateStr)
  let today := referenceDate
  if lower = "today" then some today
  else if lower = "tomorrow" then some (today + 1)
  else
    match findWeekdayMatch lower.data with
    | some (pre, dayName) =>
      let targetDay : Int :=
        if dayName = "shabbos" ∨ dayName = "motzei shabbos" then 6
        else
          match dayNames.findIdx? (fun d => d == dayName) with
          | some i => Int.ofNat i
          | none => -1
      if targetDay = -1 then none
      else
        let currentDay : Int := Int.ofNat (dayOfWeek today)
        let daysToAdd : Int := targetDay - currentDay
        let daysToAdd : Int :=
          if pre = some "next" ∨ daysToAdd ≤ 0 then daysToAdd + 7 else daysToAdd
        some ((Int.ofNat today + daysToAdd).toNat)
    | none =>
      if hasFourDigitRun dateStr.data || hasSlashDate dateStr.data then
        match jsGenericDateParse dateStr with
        | some d => some d
        | none => parseMonthDay lower today
      else parseMonthDay lower today

/-- A day on which appointments happen: Wednesday (3) or Saturday (6),
the test of the `getNextAvailableDates` loop. -/
def isApptDay (d : EpochDay) : Bool := dayOfWeek d == 3 || dayOfWeek d == 6

/-- The `while` loop of `getNextAvailableDates`, with explicit fuel (the
source loop always terminates: every window of four consecutive days
contains a Wednesday or a Saturday). -/
def nextDatesAux : Nat → EpochDay → Nat → List EpochDay
  | 0, _, _ => []
  | _ + 1, _, 0 => []
  | fuel + 1, current, need + 1 =>
    let c := current + 1
    if isApptDay c then c :: nextDatesAux fuel c need
    else nextDatesAux fuel c (need + 1)

/-- Function `getNextAvailableDates` from date-utils: starting the day after the
reference date, collect the next `count` Wednesdays/Saturdays. -/
def getNextAvailableDates (referenceDate : EpochDay) (count : Nat) : List EpochDay :=
  nextDatesAux (4 * count + 7) referenceDate count

def weekdayNames : List String :=
  ["Sunday", "Monday", "Tuesday", "Wednesday", "Thursday", "Friday", "Saturday"]

def monthNamesDisplay : List String :=
  ["January", "February", "March", "April", "May", "June", "July", "August",
   "September", "October", "November", "December"]

/-- Function `formatDate`: the en-US `toLocaleDateString` rendering with long
weekday, long month and numeric day, e.g. "Wednesday, March 13". -/
def formatDate (d : EpochDay) : String :=
  let c := civilFromDays (Int.ofNat d)
  (weekdayNames.getD (dayOfWeek d) "") ++ ", " ++
    (monthNamesDisplay.getD (c.2.1.toNat - 1) "") ++ " " ++ toString c.2.2

/-! ## Helper lemmas -/

theorem upsertCustomer_bookings (db : Db) (phone name : String) :
    (upsertCustomer db phone name).2.bookings = db.bookings := by
  simp only [upsertCustomer]
  cases List.find? (fun c => c.id == digitsOnly phone) db.customers <;> rfl

theorem isSlotAvailable_eq_of_bookings (db db' : Db) (d : EpochDay) (t : String)
    (h : db.bookings = db'.bookings) :
    isSlotAvailable db d t = isSlotAvailable db' d t := by
  unfold isSlotAvailable
  rw [h]

theorem isValidAppointmentTime_day (d : EpochDay) (t : String)
    (h : isValidAppointmentTime d t = true) : dayOfWeek d = 3 ∨ dayOfWeek d = 6 := by
  by_contra hc
  push_neg at hc
  unfold isValidAppointmentTime at h
  split at h
  · simp at h
  · rw [if_neg hc.1, if_neg hc.2] at h
    simp at h

theorem getField_mergeData (e n : ExtractedData) (f : DataField) :
    getField f (mergeData e n) = getField f e ∨
      (∃ w, getField f n = some w ∧ nonEmptyVal w = true ∧
        getField f (mergeData e n) = some w) := by
  cases f
  case groupSize =>
    cases hn : n.groupSize with
    | none => left; simp [mergeData, getField, mergeNum, hn]
    | some k =>
      right
      exact ⟨.num k, by simp [getField, hn], rfl, by simp [mergeData, getField, mergeNum, hn]⟩
  case name =>
    cases hn : n.name with
    | none => left; simp [mergeData, getField, mergeStr, hn]
    | some s =>
      by_cases hs : s = ""
      · left; simp [mergeData, getField, mergeStr, hn, hs]
      · right
        exact ⟨.str s, by simp [getField, hn], by simp [nonEmptyVal, hs],
          by simp [mergeData, getField, mergeStr, hn, hs]⟩
  case appointmentDate =>
    cases hn : n.appointmentDate with
    | none => left; simp [mergeData, getField, mergeStr, hn]
    | some s =>
      by_cases hs : s = ""
      · left; simp [mergeData, getField, mergeStr, hn, hs]
      · right
        exact ⟨.str s, by simp [getField, hn], by simp [nonEmptyVal, hs],
          by simp [mergeData, getField, mergeStr, hn, hs]⟩
  case slotTime =>
    cases hn : n.slotTime with
    | none => left; simp [mergeData, getField, mergeStr, hn]
    | some s =>
      by_cases hs : s = ""
      · left; simp [mergeData, getField, mergeStr, hn, hs]
      · right
        exact ⟨.str s, by simp [getField, hn], by simp [nonEmptyVal, hs],
          by simp [mergeData, getField, mergeStr, hn, hs]⟩
  case weddingDate =>
    cases hn : n.weddingDate with
    | none => left; simp [mergeData, getField, mergeStr, hn]
    | some s =>
      by_cases hs : s = ""
      · left; simp [mergeData, getField, mergeStr, hn, hs]
      · right
        exact ⟨.str s, by simp [getField, hn], by simp [nonEmptyVal, hs],
          by simp [mergeData, getField, mergeStr, hn, hs]⟩
  case phone =>
    cases hn : n.phone with
    | none => left; simp [mergeData, getField, mergeStr, hn]
    | some s =>
      by_cases hs : s = ""
      · left; simp [mergeData, getField, mergeStr, hn, hs]
      · right
        exact ⟨.str s, by simp [getField, hn], by simp [nonEmptyVal, hs],
          by simp [mergeData, getField, mergeStr, hn, hs]⟩

theorem step_preserves (phone : String) (st m : ExtractedData) (f : DataField) (v : JsVal)
    (hv : getField f st = some v) (hne : nonEmptyVal v = true) :
    ∃ w, getField f (updateCollectedData (some st) m phone) = some w ∧
      nonEmptyVal w = true ∧ (w = v ∨ getField f m = some w) := by
  have hm := getField_mergeData st m f
  have hmain : ∃ w, getField f (mergeData st m) = some w ∧ nonEmptyVal w = true ∧
      (w = v ∨ getField f m = some w) := by
    rcases hm with h | ⟨w, hw1, hw2, hw3⟩
    · exact ⟨v, h.trans hv, hne, Or.inl rfl⟩
    · exact ⟨w, hw3, hw2, Or.inr hw1⟩
  obtain ⟨w, hw1, hw2, hw3⟩ := hmain
  simp only [updateCollectedData, Option.getD_some]
  by_cases hmiss : missingStr (mergeData st m).phone = true
  · rw [if_pos hmiss]
    cases f with
    | phone =>
      exfalso
      simp only [getField] at hw1
      cases hcp : (mergeData st m).phone with
      | none => rw [hcp] at hw1; simp at hw1
      | some s =>
        rw [hcp] at hw1
        simp only [Option.map_some'] at hw1
        rw [hcp] at hmiss
        simp only [missingStr, beq_iff_eq] at hmiss
        obtain rfl : JsVal.str s = w := by injection hw1
        rw [hmiss] at hw2
        simp [nonEmptyVal] at hw2
    | name => exact ⟨w, hw1, hw2, hw3⟩
    | appointmentDate => exact ⟨w, hw1, hw2, hw3⟩
    | slotTime => exact ⟨w, hw1, hw2, hw3⟩
    | groupSize => exact ⟨w, hw1, hw2, hw3⟩
    | weddingDate => exact ⟨w, hw1, hw2, hw3⟩
  · rw [if_neg hmiss]
    exact ⟨w, hw1, hw2, hw3⟩

theorem countP_replace (L : List BlockedDate) (b : BlockedDate) :
    (L.map (fun x => if x.id == b.id then b else x)).countP (fun x => x.id == b.id) =
      L.countP (fun x => x.id == b.id) := by
  induction L with
  | nil => rfl
  | cons a l ih =>
    by_cases h : (a.id == b.id) = true
    · simp only [List.map_cons, List.countP_cons, if_pos h, ih, h]
      simp
    · simp only [List.map_cons, List.countP_cons, if_neg h, ih]

theorem setDoc_countP_one (L : List BlockedDate) (b : BlockedDate)
    (h : L.countP (fun x => x.id == b.id) ≤ 1) :
    (setBlockedDateDoc L b).countP (fun x => x.id == b.id) = 1 := by
  unfold setBlockedDateDoc
  by_cases hany : L.any (fun x => x.id == b.id) = true
  · rw [if_pos hany, countP_replace]
    have hpos : 0 < L.countP (fun x => x.id == b.id) := by
      rw [List.countP_pos_iff]
      simpa [List.any_eq_true] using hany
    omega
  · rw [if_neg hany, List.countP_append]
    have h0 : L.countP (fun x => x.id == b.id) = 0 := by
      rw [List.countP_eq_zero]
      intro a ha hpa
      exact hany (by rw [List.any_eq_true]; exact ⟨a, ha, hpa⟩)
    rw [h0]
    simp [List.countP_cons]

theorem setDoc_entries (L : List BlockedDate) (b : BlockedDate) :
    ∀ x ∈ setBlockedDateDoc L b, x.id = b.id → x = b := by
  intro x hx hid
  unfold setBlockedDateDoc at hx
  by_cases hany : L.any (fun y => y.id == b.id) = true
  · rw [if_pos hany] at hx
    obtain ⟨a, ha, hfa⟩ := List.mem_map.mp hx
    by_cases hai : (a.id == b.id) = true
    · rw [if_pos hai] at hfa
      exact hfa.symm
    · rw [if_neg hai] at hfa
      rw [← hfa] at hid
      exact absurd (by simpa using hid) hai
  · rw [if_neg hany] at hx
    rcases List.mem_append.mp hx with hL | hb
    · exact absurd (by rw [List.any_eq_true]; exact ⟨x, hL, by simpa using hid⟩) hany
    · simpa using hb

theorem setDoc_any (L : List BlockedDate) (b : BlockedDate) :
    (setBlockedDateDoc L b).any (fun x => x.id == b.id) = true := by
  unfold setBlockedDateDoc
  by_cases hany : L.any (fun x => x.id == b.id) = true
  · rw [if_pos hany, List.any_eq_true]
    obtain ⟨a, ha, hpa⟩ := List.any_eq_true.mp hany
    exact ⟨b, List.mem_map.mpr ⟨a, ha, by rw [if_pos hpa]⟩, by simp⟩
  · rw [if_neg hany, List.any_eq_true]
    exact ⟨b, List.mem_append.mpr (Or.inr (by simp)), by simp⟩

theorem setDoc_idem (L : List BlockedDate) (b : BlockedDate)
    (hall : ∀ x ∈ L, x.id = b.id → x = b)
    (hany : L.any (fun x => x.id == b.id) = true) :
    setBlockedDateDoc L b = L := by
  unfold setBlockedDateDoc
  rw [if_pos hany]
  conv_rhs => rw [← List.map_id L]
  apply List.map_congr_left
  intro a ha
  by_cases hai : (a.id == b.id) = true
  · rw [if_pos hai]
    exact (hall a ha (by simpa using hai)).symm
  · rw [if_neg hai]
    rfl

theorem isApptDay_iff (d : Nat) : isApptDay d = true ↔ d % 7 = 2 ∨ d % 7 = 6 := by
  unfold isApptDay dayOfWeek
  simp only [Bool.or_eq_true, beq_iff_eq]
  omega

/-- Distance from `d` to the next strictly later Wednesday/Saturday; every
gap is at most 4 days, which bounds the fuel the source's `while` loop
needs. -/
def nextGap (d : Nat) : Nat :=
  if d % 7 = 0 then 2 else if d % 7 = 1 then 1 else if d % 7 = 2 then 4
  else if d % 7 = 3 then 3 else if d % 7 = 4 then 2 else if d % 7 = 5 then 1 else 3

theorem nextGap_pos (d : Nat) : 1 ≤ nextGap d := by
  unfold nextGap; split_ifs <;> omega

theorem nextGap_le (d : Nat) : nextGap d ≤ 4 := by
  unfold nextGap; split_ifs <;> omega

theorem isApptDay_nextGap (d : Nat) : isApptDay (d + nextGap d) = true := by
  rw [isApptDay_iff]
  unfold nextGap
  split_ifs <;> omega

theorem nextGap_succ (d : Nat) (h : isApptDay (d + 1) = false) :
    nextGap (d + 1) = nextGap d - 1 := by
  have h' : ¬((d + 1) % 7 = 2 ∨ (d + 1) % 7 = 6) := by
    intro hc
    rw [(isApptDay_iff (d + 1)).mpr hc] at h
    cases h
  unfold nextGap
  split_ifs <;> omega

theorem nextGap_eq_one (d : Nat) (h : isApptDay (d + 1) = true) : nextGap d = 1 := by
  have h' := (isApptDay_iff _).mp h
  unfold nextGap
  split_ifs <;> omega

theorem nextDatesAux_props (fuel : Nat) : ∀ (cur need : Nat),
    nextGap cur + 4 * need ≤ fuel + 4 →
    (nextDatesAux fuel cur need).length = need ∧
    (∀ x ∈ nextDatesAux fuel cur need, cur < x ∧ isApptDay x = true) ∧
    (nextDatesAux fuel cur need).Pairwise (· < ·) ∧
    (∀ y, cur < y → isApptDay y = true → y ∉ nextDatesAux fuel cur need →
      ∀ x ∈ nextDatesAux fuel cur need, x < y) := by
  induction fuel with
  | zero =>
    intro cur need hf
    have := nextGap_pos cur
    have hn : need = 0 := by omega
    subst hn
    simp [nextDatesAux]
  | succ f ih =>
    intro cur need hf
    cases need with
    | zero => simp [nextDatesAux]
    | succ n =>
      have unfoldEq : nextDatesAux (f + 1) cur (n + 1) =
          if isApptDay (cur + 1) then (cur + 1) :: nextDatesAux f (cur + 1) n
          else nextDatesAux f (cur + 1) (n + 1) := rfl
      by_cases happ : isApptDay (cur + 1) = true
      · have hgap1 : nextGap cur = 1 := nextGap_eq_one cur happ
        have hf' : nextGap (cur + 1) + 4 * n ≤ f + 4 := by
          have := nextGap_le (cur + 1)
          omega
        obtain ⟨ihlen, ihmem, ihpw, ihmin⟩ := ih (cur + 1) n hf'
        rw [unfoldEq, if_pos happ]
        refine ⟨by simp [ihlen], ?_, ?_, ?_⟩
        · intro x hx
          rcases List.mem_cons.mp hx with rfl | hx'
          · exact ⟨Nat.lt_succ_self cur, happ⟩
          · exact ⟨Nat.lt_trans (Nat.lt_succ_self cur) (ihmem x hx').1, (ihmem x hx').2⟩
        · exact List.pairwise_cons.mpr ⟨fun x hx => (ihmem x hx).1, ihpw⟩
        · intro y hy happy hnot x hx
          have hne : y ≠ cur + 1 := fun hc => hnot (hc ▸ List.mem_cons_self _ _)
          have hy1 : cur + 1 < y := by omega
          rcases List.mem_cons.mp hx with rfl | hx'
          · exact hy1
          · exact ihmin y hy1 happy (fun hc => hnot (List.mem_cons_of_mem _ hc)) x hx'
      · have happf : isApptDay (cur + 1) = false := by
          revert happ
          cases isApptDay (cur + 1) <;> simp
        have hgap2 : 2 ≤ nextGap cur := by
          by_contra hlt
          push_neg at hlt
          have hpos := nextGap_pos cur
          have h1 : nextGap cur = 1 := by omega
          have happ1 := isApptDay_nextGap cur
          rw [h1] at happ1
          rw [happ1] at happf
          cases happf
        have hgap : nextGap (cur + 1) = nextGap cur - 1 := nextGap_succ cur happf
        have hf' : nextGap (cur + 1) + 4 * (n + 1) ≤ f + 4 := by
          rw [hgap]
          omega
        obtain ⟨ihlen, ihmem, ihpw, ihmin⟩ := ih (cur + 1) (n + 1) hf'
        rw [unfoldEq, if_neg happ]
        refine ⟨ihlen, ?_, ihpw, ?_⟩
        · intro x hx
          exact ⟨Nat.lt_trans (Nat.lt_succ_self cur) (ihmem x hx).1, (ihmem x hx).2⟩
        · intro y hy happy hnot x hx
          have hne : y ≠ cur + 1 := by
            intro hc
            rw [hc, happf] at happy
            cases happy
          have hy1 : cur + 1 < y := by omega
          exact ihmin y hy1 happy hnot x hx

/-! ## Claims -/

/-- An in-flight `createBooking` call that has returned a booking. -/
def finishedOk : CallState → Bool
  | .finished (.ok _) => true
  | _ => false

/-- First concurrent caller: party of 2 on Wednesday 2024-03-06 (epoch
day 19788) at 11:30 AM. -/
def racerA : CreateParams :=
  { customerPhone := "5551112222", customerName := "Ann", appointmentDate := 19788,
    slotTime := "11:30 AM", groupSize := 2, weddingDate := 19900 }

/-- Second concurrent caller: a different customer requesting the same
slot. -/
def racerB : CreateParams :=
  { customerPhone := "5553334444", customerName := "Beth", appointmentDate := 19788,
    slotTime := "11:30 AM", groupSize := 2, weddingDate := 19901 }

/-- The interleaving in which both calls read availability before either
writes: upsert A, upsert B, check A, check B, write A, write B. -/
def raceSchedule : List Bool := [true, false, true, false, true, false]

/-- C1: The claim fails on the code: `createBooking` checks
`isSlotAvailable` and then writes the booking document with no
transaction or unique constraint on (date, slot), and the two documents
have distinct ids (customer id + date). Under the interleaving in which
both concurrent calls read availability before either writes, both
calls return a booking and the store ends with two `confirmed` bookings
for the same (date, timeLabel) — the at-most-one invariant the spec
mandates is not enforced. -/
theorem C1_concurrent_createBooking_double_books :
    ((exec2 racerA racerB raceSchedule ({}, .ready, .ready)).1.bookings.countP
      (fun b => b.appointmentDate == 19788 && b.slotTime == "11:30 AM" &&
        b.status == BookingStatus.confirmed)) = 2 ∧
    finishedOk (exec2 racerA racerB raceSchedule ({}, .ready, .ready)).2.1 = true ∧
    finishedOk (exec2 racerA racerB raceSchedule ({}, .ready, .ready)).2.2 = true := by
  decide

/-- A booking with status `completed` occupying Wednesday 1970-01-07
(epoch day 6) at 11:30 AM. -/
def c2Booking : Booking :=
  { id := "b1"
    customerId := "5550001111"
    customerName := "Ann"
    customerPhone := "5550001111"
    appointmentDate := 6
    slotTime := "11:30 AM"
    slotDuration := 15
    groupSize := 2
    weddingDate := 100
    status := .completed }

/-- A store whose only booking is `c2Booking`. -/
def c2Db : Db := { bookings := [c2Booking] }

/-- C2 counterexample: A booking with status `completed` is not
cancelled, yet `isSlotAvailable` reports the slot free: the Firestore
query only filters on status `pending`/`confirmed`, refuting the
claim's "no non-cancelled Booking" characterisation. -/
theorem C2_counterexample_completed_slot_free :
    isSlotAvailable c2Db 6 "11:30 AM" = true ∧
    c2Db.bookings.any (fun b => b.appointmentDate == 6 && b.slotTime == "11:30 AM" &&
      !(b.status == BookingStatus.cancelled)) = true := by
  decide

/-- C2 amended: `isSlotAvailable db d t` is true iff
`isValidAppointmentTime d t` holds and no booking with status `pending`
or `confirmed` occupies (d, t); bookings with status `completed`,
`no-show` (or `cancelled`) do not make the slot unavailable. -/
theorem C2_isSlotAvailable_iff_no_pending_confirmed (db : Db) (d : EpochDay) (t : String) :
    isSlotAvailable db d t = true ↔
      (isValidAppointmentTime d t = true ∧
        ∀ b ∈ db.bookings, b.appointmentDate = d → b.slotTime = t →
          b.status ≠ BookingStatus.pending ∧ b.status ≠ BookingStatus.confirmed) := by
  cases hv : isValidAppointmentTime d t with
  | false => simp [isSlotAvailable, hv]
  | true =>
    simp only [isSlotAvailable, hv, Bool.not_true, Bool.false_eq_true, if_false, true_and,
      Bool.not_eq_true', List.any_eq_false, Bool.and_eq_true, Bool.or_eq_true, beq_iff_eq,
      not_and, not_or, Bool.not_eq_true]
    constructor
    · intro h b hb hd ht
      have := h b hb
      tauto
    · intro h b hb
      have := h b hb
      tauto

/-- C2 witness: On an empty store a valid Wednesday slot is free. -/
theorem C2_witness :
    isSlotAvailable { bookings := [] } 6 "11:30 AM" = true :=
  (C2_isSlotAvailable_iff_no_pending_confirmed { bookings := [] } 6 "11:30 AM").mpr
    ⟨by decide, by simp⟩

/-- C3: The party-size gate of `createBooking`, given that the slot
is free: at most 4 people always succeed with a 15-minute slot; 5 or 6
people succeed with a 30-minute slot exactly when the requested label is
the last entry of the weekday's full configured list, and get the
`PartySizeRequiresLastSlot` error otherwise; more than 6 people get the
`PartySizeExceeded` error. -/
theorem C3_party_size_gate (db : Db) (p : CreateParams)
    (hfree : isSlotAvailable db p.appointmentDate p.slotTime = true) :
    (p.groupSize ≤ 4 →
      ∃ b, (createBooking db p).1 = .ok b ∧ b.slotDuration = 15 ∧ b.status = .confirmed) ∧
    (5 ≤ p.groupSize → p.groupSize ≤ 6 →
      p.slotTime = (slotsFor p.appointmentDate).getLastD "" →
      ∃ b, (createBooking db p).1 = .ok b ∧ b.slotDuration = 30 ∧ b.status = .confirmed) ∧
    (5 ≤ p.groupSize → p.groupSize ≤ 6 →
      p.slotTime ≠ (slotsFor p.appointmentDate).getLastD "" →
      (createBooking db p).1 = .error .partySizeRequiresLastSlot) ∧
    (6 < p.groupSize → (createBooking db p).1 = .error .partySizeExceeded) := by
  have hvalid : isValidAppointmentTime p.appointmentDate p.slotTime = true := by
    cases hv : isValidAppointmentTime p.appointmentDate p.slotTime with
    | true => rfl
    | false =>
      rw [isSlotAvailable, hv] at hfree
      simp at hfree
  have hday := isValidAppointmentTime_day _ _ hvalid
  have hslots : (if dayOfWeek p.appointmentDate = 3 then wednesdaySlots
      else motzeiShabbosSlots) = slotsFor p.appointmentDate := by
    rcases hday with h | h <;> simp [slotsFor, h]
  have hfree1 : isSlotAvailable (upsertCustomer db p.customerPhone p.customerName).2
      p.appointmentDate p.slotTime = true := by
    rw [isSlotAvailable_eq_of_bookings _ db _ _ (upsertCustomer_bookings db _ _)]
    exact hfree
  refine ⟨?_, ?_, ?_, ?_⟩
  · intro hle
    have h4 : ¬ p.groupSize > 4 := by omega
    have h6 : ¬ p.groupSize > 6 := by omega
    have hsz : partySizeCheck p = none := by
      simp [partySizeCheck, h4, h6]
    refine ⟨mkBooking (upsertCustomer db p.customerPhone p.customerName).1 p, ?_, ?_, rfl⟩
    · simp only [createBooking, hfree1, Bool.not_true, Bool.false_eq_true, if_false, hsz]
    · simp only [mkBooking]
      rw [if_neg h4]
  · intro h5 h6 hlast
    have hlast2 : p.slotTime = (slotsFor p.appointmentDate).getLast?.getD "" := by
      simpa [List.getLastD_eq_getLast?] using hlast
    have hsz : partySizeCheck p = none := by
      simp [partySizeCheck, hslots, show p.groupSize > 4 by omega,
        show p.groupSize ≤ 6 by omega, hlast2]
    refine ⟨mkBooking (upsertCustomer db p.customerPhone p.customerName).1 p, ?_, ?_, rfl⟩
    · simp only [createBooking, hfree1, Bool.not_true, Bool.false_eq_true, if_false, hsz]
    · simp only [mkBooking]
      rw [if_pos (by omega)]
  · intro h5 h6 hlast
    have hlast2 : ¬ p.slotTime = (slotsFor p.appointmentDate).getLast?.getD "" := by
      simpa [List.getLastD_eq_getLast?] using hlast
    have hsz : partySizeCheck p = some .partySizeRequiresLastSlot := by
      simp [partySizeCheck, hslots, show p.groupSize > 4 by omega,
        show p.groupSize ≤ 6 by omega, hlast2]
    simp only [createBooking, hfree1, Bool.not_true, Bool.false_eq_true, if_false, hsz]
  · intro hgt
    have hsz : partySizeCheck p = some .partySizeExceeded := by
      simp [partySizeCheck, show ¬ p.groupSize ≤ 6 by omega, show p.groupSize > 6 by omega]
    simp only [createBooking, hfree1, Bool.not_true, Bool.false_eq_true, if_false, hsz]

/-- C3 witness: A party of 7 on a free Wednesday slot is rejected
with `PartySizeExceeded`. -/
theorem C3_witness :
    isSlotAvailable ({} : Db) 19788 "11:30 AM" = true ∧
    (createBooking ({} : Db)
      { customerPhone := "5551112222", customerName := "Ann", appointmentDate := 19788,
        slotTime := "11:30 AM", groupSize := 7, weddingDate := 19900 }).1 =
      .error .partySizeExceeded :=
  ⟨by decide,
    (C3_party_size_gate ({} : Db)
      { customerPhone := "5551112222", customerName := "Ann", appointmentDate := 19788,
        slotTime := "11:30 AM", groupSize := 7, weddingDate := 19900 }
      (by decide)).2.2.2 (by decide)⟩

/-- C4: The claim fails on the code and the code contradicts its own
comment: `isValidAppointmentTime` never checks membership of the label
in the configured slot list, and its Saturday window starts at 19:00
rather than the documented 19:30. On Saturday 1970-01-03 (epoch day 2)
the label "7:00 PM" parses to 19:00 and is accepted although it is
neither in `slotsFor` nor inside the 19:30-21:15 window; likewise
"11:30" (without AM) is accepted on Wednesday epoch day 6 although it is
not a configured label. -/
theorem C4_isValidAppointmentTime_out_of_window :
    dayOfWeek 2 = 6 ∧
    isValidAppointmentTime 2 "7:00 PM" = true ∧
    (slotsFor 2).contains "7:00 PM" = false ∧
    parseTime "7:00 PM" = some (19, 0) ∧
    dayOfWeek 6 = 3 ∧
    isValidAppointmentTime 6 "11:30" = true ∧
    (slotsFor 6).contains "11:30" = false := by
  decide

/-- A confirmed booking occupying Wednesday 2024-03-06 (epoch day
19788) at 11:30 AM. -/
def c5Booking : Booking :=
  { id := "b1"
    customerId := "5550001111"
    customerName := "Ann"
    customerPhone := "5550001111"
    appointmentDate := 19788
    slotTime := "11:30 AM"
    slotDuration := 15
    groupSize := 2
    weddingDate := 19900
    status := .confirmed }

/-- A store whose only booking is `c5Booking`. -/
def c5Db : Db := { bookings := [c5Booking] }

/-- Booking `c5Booking` moved to Saturday 2024-03-09 (epoch day 19791), 7:30 PM. -/
def c5Rescheduled : Booking :=
  { c5Booking with
    appointmentDate := 19791
    slotTime := "7:30 PM"
    dayBeforeReminderSent := false }

/-- C5 counterexample: `rescheduleBooking` does not exclude the
booking's own prior slot from the availability check: rescheduling the
only existing booking onto its current (valid) slot fails with the
slot-unavailable error even though the only occupant is the booking
itself, which the claim says is excluded. -/
theorem C5_counterexample_reschedule_own_slot :
    (rescheduleBooking c5Db "b1" 19788 "11:30 AM").1 = .slotUnavailable ∧
    (rescheduleBooking c5Db "b1" 19788 "11:30 AM").2 = c5Db ∧
    isValidAppointmentTime 19788 "11:30 AM" = true ∧
    c5Db.bookings.all (fun b => b.id == "b1") = true := by
  decide

/-- C5 amended: `rescheduleBooking` re-runs `isSlotAvailable`
against the new slot over the full ledger — without excluding the
booking's own prior slot, so moving a booking onto its own current slot
fails; on success it updates exactly the date/time fields and resets
`dayBeforeReminderSent` to false, and on failure (slot unavailable or
unknown id) the store is left unchanged. -/
theorem C5_reschedule_behavior (db : Db) (bookingId : String) (nd : EpochDay) (nt : String) :
    (db.bookings.find? (fun b => b.id == bookingId) = none →
        rescheduleBooking db bookingId nd nt = (.notFound, db)) ∧
    (∀ b, db.bookings.find? (fun b => b.id == bookingId) = some b →
      (isSlotAvailable db nd nt = false →
          rescheduleBooking db bookingId nd nt = (.slotUnavailable, db)) ∧
      (isSlotAvailable db nd nt = true →
          rescheduleBooking db bookingId nd nt =
            (RescheduleOutcome.rescheduled { b with appointmentDate := nd, slotTime := nt, dayBeforeReminderSent := false },
             { db with bookings := setBookingDoc db.bookings { b with appointmentDate := nd, slotTime := nt, dayBeforeReminderSent := false } }))) := by
  refine ⟨?_, ?_⟩
  · intro h
    simp [rescheduleBooking, h]
  · intro b hb
    refine ⟨?_, ?_⟩ <;> intro hav <;> simp [rescheduleBooking, hb, hav]

/-- C5 witness: Rescheduling the booking of `c5Db` to the free
Saturday slot 7:30 PM on 2024-03-09 (epoch day 19791) succeeds and
rewrites exactly the date/time fields and the reminder flag. -/
theorem C5_witness :
    rescheduleBooking c5Db "b1" 19791 "7:30 PM" =
      (RescheduleOutcome.rescheduled c5Rescheduled, { bookings := [c5Rescheduled] }) :=
  ((C5_reschedule_behavior c5Db "b1" 19791 "7:30 PM").2 c5Booking
    (by decide)).2 (by decide)

/-- C6: The case analysis of `getConfiguredSlotsForDate`: an absent
(non-Wednesday/Saturday) or disabled weekday schedule gives empty slots
with `blocked = false`; an override with empty `blockedSlots` gives
empty slots with `blocked = true` carrying the override's reason; an
override with non-empty `blockedSlots` gives the weekday's slots minus
the blocked ones with `blocked = false`; otherwise the full weekday slot
list with `blocked = false`. -/
theorem C6_effectiveSlots_cases (db : Db) (d : EpochDay) :
    ((dayOfWeek d ≠ 3 ∧ dayOfWeek d ≠ 6) →
        getConfiguredSlotsForDate db d = { slots := [], blocked := false }) ∧
    (∀ dc : DayConfig,
      (dayOfWeek d = 3 ∧ dc = (getScheduleConfig db).wednesday ∨
        dayOfWeek d = 6 ∧ dc = (getScheduleConfig db).saturday) →
      (dc.enabled = false →
          getConfiguredSlotsForDate db d = { slots := [], blocked := false }) ∧
      (dc.enabled = true →
        (getBlockedDate db d = none →
            getConfiguredSlotsForDate db d = { slots := dc.slots, blocked := false }) ∧
        (∀ bi, getBlockedDate db d = some bi →
          (bi.blockedSlots = [] →
              getConfiguredSlotsForDate db d =
                { slots := [], blocked := true, reason := bi.reason }) ∧
          (bi.blockedSlots ≠ [] →
              (getConfiguredSlotsForDate db d).blocked = false ∧
              (getConfiguredSlotsForDate db d).reason = none ∧
              ∀ s, s ∈ (getConfiguredSlotsForDate db d).slots ↔
                (s ∈ dc.slots ∧ s ∉ bi.blockedSlots))))) := by
  constructor
  · intro h
    simp [getConfiguredSlotsForDate, h.1, h.2]
  · intro dc hcase
    have hres : getConfiguredSlotsForDate db d =
        (if !dc.enabled then { slots := [], blocked := false }
         else
           match getBlockedDate db d with
           | some blockedInfo =>
             if blockedInfo.blockedSlots.isEmpty then
               { slots := [], blocked := true, reason := blockedInfo.reason }
             else
               { slots := dc.slots.filter (fun slot => !blockedInfo.blockedSlots.contains slot),
                 blocked := false }
           | none => { slots := dc.slots, blocked := false }) := by
      rcases hcase with ⟨h3, rfl⟩ | ⟨h6, rfl⟩
      · simp [getConfiguredSlotsForDate, h3]
      · simp [getConfiguredSlotsForDate, h6]
    refine ⟨?_, ?_⟩
    · intro hdis
      rw [hres, hdis]
      rfl
    · intro hen
      rw [hres, hen]
      refine ⟨?_, ?_⟩
      · intro hnone
        simp [hnone]
      · intro bi hbi
        refine ⟨?_, ?_⟩
        · intro hempty
          simp [hbi, hempty]
        · intro hne
          have hiem : bi.blockedSlots.isEmpty = false := by
            cases hbs : bi.blockedSlots with
            | nil => exact absurd hbs hne
            | cons a l => simp [hbs]
          simp only [hbi, hiem, Bool.not_true, Bool.false_eq_true, if_false]
          simp [List.mem_filter]

/-- An override for Wednesday 2024-03-06 blocking only the 11:30 AM
slot. -/
def c6Override : BlockedDate :=
  { id := 19788
    date := 19788
    reason := some "cleaning"
    blockedSlots := ["11:30 AM"] }

/-- A store holding only `c6Override` (schedule config absent, so the
defaults apply). -/
def c6Db : Db := { blockedDates := [c6Override] }

/-- C6 witness: With the default Wednesday schedule and an override
blocking 11:30 AM, the result is unblocked, carries no reason, and its
slots are the configured ones minus the blocked one. -/
theorem C6_witness :
    (getConfiguredSlotsForDate c6Db 19788).blocked = false ∧
    (getConfiguredSlotsForDate c6Db 19788).reason = none ∧
    ("11:45 AM" ∈ (getConfiguredSlotsForDate c6Db 19788).slots ↔
      ("11:45 AM" ∈ DEFAULT_CONFIG.wednesday.slots ∧
        "11:45 AM" ∉ c6Override.blockedSlots)) := by
  have h := ((C6_effectiveSlots_cases c6Db 19788).2 DEFAULT_CONFIG.wednesday
    (Or.inl ⟨by decide, rfl⟩)).2 rfl
  have h2 := (h.2 c6Override rfl).2 (by decide)
  exact ⟨h2.1, h2.2.1, h2.2.2 "11:45 AM"⟩

/-- C7: Monotonicity of the conversation-state merge: across any
sequence of booking-intent messages processed by
`updateConversationState`'s collected-data computation, a field holding
a non-empty value keeps holding a non-empty value; it is never cleared
by a message that omits it or supplies the empty string, and its value
can change only to a value supplied by one of the later messages (which
the `mergeData` filter guarantees is non-empty). -/
theorem C7_merge_monotonic (phone : String) (msgs : List ExtractedData)
    (st : ExtractedData) (f : DataField) (v : JsVal)
    (hv : getField f st = some v) (hne : nonEmptyVal v = true) :
    ∃ w, getField f (msgs.foldl (fun s m => updateCollectedData (some s) m phone) st) = some w ∧
      nonEmptyVal w = true ∧ (w = v ∨ ∃ m ∈ msgs, getField f m = some w) := by
  induction msgs generalizing st v with
  | nil => exact ⟨v, hv, hne, Or.inl rfl⟩
  | cons m ms ih =>
    obtain ⟨w, hw1, hw2, hw3⟩ := step_preserves phone st m f v hv hne
    obtain ⟨u, hu1, hu2, hu3⟩ := ih (updateCollectedData (some st) m phone) w hw1 hw2
    refine ⟨u, ?_, hu2, ?_⟩
    · simpa [List.foldl_cons] using hu1
    · rcases hu3 with rfl | ⟨m', hm', hgm⟩
      · rcases hw3 with rfl | hsup
        · exact Or.inl rfl
        · exact Or.inr ⟨m, List.mem_cons_self m ms, hsup⟩
      · exact Or.inr ⟨m', List.mem_cons_of_mem m hm', hgm⟩

/-- C7 witness: A name collected first survives a message carrying
an empty name and a message carrying only a phone number. -/
theorem C7_witness :
    ∃ w, getField .name
        (List.foldl (fun s m => updateCollectedData (some s) m "5551112222")
          { name := some "Sarah" }
          [{ name := some "" }, { phone := some "5553334444" }]) = some w ∧
      nonEmptyVal w = true ∧
      (w = .str "Sarah" ∨
        ∃ m ∈ [({ name := some "" } : ExtractedData), { phone := some "5553334444" }],
          getField .name m = some w) :=
  C7_merge_monotonic "5551112222" [{ name := some "" }, { phone := some "5553334444" }]
    { name := some "Sarah" } .name (.str "Sarah") (by decide) (by decide)

/-- C8: With the Monday 2024-03-04 reference (epoch day 19786),
`parseDate "next Wednesday"` resolves to 2024-03-13 (epoch day 19795,
a week past this week's Wednesday) and `parseDate "this Wednesday"` to
2024-03-06 (epoch day 19788); `formatDate` renders the former date —
March 13, 2024 — as "Wednesday, March 13" (the format carries no
year). -/
theorem C8_parseDate_roundtrip :
    dayOfWeek 19786 = 1 ∧
    daysFromCivil 2024 3 4 = 19786 ∧
    parseDate "next Wednesday" 19786 = some 19795 ∧
    civilFromDays 19795 = (2024, 3, 13) ∧
    dayOfWeek 19795 = 3 ∧
    parseDate "this Wednesday" 19786 = some 19788 ∧
    civilFromDays 19788 = (2024, 3, 6) ∧
    formatDate 19795 = "Wednesday, March 13" := by
  decide

/-- C9: `blockDate` has upsert semantics: starting from a store with
at most one override for the date, calling it twice with the same
arguments leaves exactly one override for the date, carrying the given
reason (and whole-day blocking), and the second call replaces the first
without changing the store at all. -/
theorem C9_blockDate_upsert_idempotent (db : Db) (d : EpochDay) (reason : Option String)
    (h : db.blockedDates.countP (fun x => x.id == d) ≤ 1) :
    ((blockDate (blockDate db d reason none).2 d reason none).2.blockedDates.countP
        (fun x => x.id == d) = 1) ∧
    (∀ x ∈ (blockDate (blockDate db d reason none).2 d reason none).2.blockedDates,
        x.id = d → x.reason = reason ∧ x.blockedSlots = []) ∧
    (blockDate (blockDate db d reason none).2 d reason none).2 =
      (blockDate db d reason none).2 := by
  have e1 : (blockDate db d reason none).2.blockedDates =
      setBlockedDateDoc db.blockedDates
        { id := d, date := d, reason := reason, blockedSlots := [] } := rfl
  have e2 : (blockDate (blockDate db d reason none).2 d reason none).2.blockedDates =
      setBlockedDateDoc (setBlockedDateDoc db.blockedDates
          { id := d, date := d, reason := reason, blockedSlots := [] })
        { id := d, date := d, reason := reason, blockedSlots := [] } := rfl
  have h1 : (setBlockedDateDoc db.blockedDates
      { id := d, date := d, reason := reason, blockedSlots := [] }).countP
        (fun x => x.id == d) = 1 :=
    setDoc_countP_one db.blockedDates
      { id := d, date := d, reason := reason, blockedSlots := [] } h
  have hall := setDoc_entries db.blockedDates
    { id := d, date := d, reason := reason, blockedSlots := [] }
  have hany := setDoc_any db.blockedDates
    { id := d, date := d, reason := reason, blockedSlots := [] }
  have hidem := setDoc_idem _ _ hall hany
  refine ⟨?_, ?_, ?_⟩
  · rw [e2, hidem, h1]
  · intro x hx hid
    rw [e2, hidem] at hx
    have := hall x hx hid
    rw [this]
    exact ⟨rfl, rfl⟩
  · show ({ (blockDate db d reason none).2 with
        blockedDates := setBlockedDateDoc (blockDate db d reason none).2.blockedDates
          { id := d, date := d, reason := reason, blockedSlots := [] } } : Db) =
      (blockDate db d reason none).2
    rw [e1, hidem, ← e1]

/-- C9 witness: Blocking 2024-03-06 twice on an empty store leaves
a store identical to blocking it once. -/
theorem C9_witness :
    (blockDate (blockDate ({} : Db) 19788 (some "closed") none).2 19788
        (some "closed") none).2.blockedDates.countP (fun x => x.id == 19788) = 1 ∧
    (blockDate (blockDate ({} : Db) 19788 (some "closed") none).2 19788
        (some "closed") none).2 = (blockDate ({} : Db) 19788 (some "closed") none).2 :=
  ⟨(C9_blockDate_upsert_idempotent ({} : Db) 19788 (some "closed") (by decide)).1,
    (C9_blockDate_upsert_idempotent ({} : Db) 19788 (some "closed") (by decide)).2.2⟩

/-- C10: `getNextAvailableDates ref n` returns exactly `n` dates,
each strictly after the reference day, each a Wednesday or a Saturday,
in strictly increasing order, and they are the earliest such dates:
every Wednesday/Saturday after the reference day that is missing from
the list is later than every listed date. -/
theorem C10_getNextAvailableDates_spec (ref count : Nat) :
    (getNextAvailableDates ref count).length = count ∧
    (∀ x ∈ getNextAvailableDates ref count,
        ref < x ∧ (dayOfWeek x = 3 ∨ dayOfWeek x = 6)) ∧
    (getNextAvailableDates ref count).Pairwise (· < ·) ∧
    (∀ y, ref < y → isApptDay y = true → y ∉ getNextAvailableDates ref count →
      ∀ x ∈ getNextAvailableDates ref count, x < y) := by
  have hf : nextGap ref + 4 * count ≤ (4 * count + 7) + 4 := by
    have := nextGap_le ref
    omega
  obtain ⟨hlen, hmem, hpw, hmin⟩ := nextDatesAux_props (4 * count + 7) ref count hf
  refine ⟨hlen, ?_, hpw, hmin⟩
  intro x hx
  refine ⟨(hmem x hx).1, ?_⟩
  have hx2 := (hmem x hx).2
  simp only [isApptDay, Bool.or_eq_true, beq_iff_eq] at hx2
  exact hx2

/-- C10 witness: From Monday 2024-03-04 the first four appointment
dates are found: the list has length 4 and contains Wednesday
2024-03-13. -/
theorem C10_witness :
    (getNextAvailableDates 19786 4).length = 4 ∧
    (19786 < 19795 ∧ (dayOfWeek 19795 = 3 ∨ dayOfWeek 19795 = 6)) :=
  ⟨(C10_getNextAvailableDates_spec 19786 4).1,
    (C10_getNextAvailableDates_spec 19786 4).2.1 19795 (by decide)⟩

end Gemach
